/-
Verification of the PyGoSQL route compiler, template processor and store
wrapper against their natural-language specification.

The Go sources are shallowly embedded: Go strings become `List Char`
(wrapped into `String` at the statement level where convenient), Go maps
with string keys become association lists, and the fallible / stateful
parts (HTTP handlers, the SQLite store) become pure step functions over an
explicit state, with the actual database engine abstracted as an oracle
parameter.  Each embedded definition mirrors one Go function and keeps its
name.
-/

import Mathlib

set_option maxRecDepth 4000

/-! ## Go string primitives

Models of the `strings` / `path/filepath` library functions the sources
use, specialised to the POSIX build (`filepath.ToSlash` is the identity
and `filepath.Separator` is '/'). -/

/-- Whitespace class of Go's regexp `\s`: space, tab, newline, form feed,
carriage return (no vertical tab). -/
def isRegexWS (c : Char) : Bool :=
  c = ' ' || c = '\t' || c = '\n' || c = '\x0c' || c = '\r'

/-- Whitespace recognised by Go's `strings.TrimSpace` (ASCII part of
`unicode.IsSpace`): space, tab, newline, vertical tab, form feed,
carriage return. -/
def isGoWS (c : Char) : Bool :=
  c = ' ' || c = '\t' || c = '\n' || c = '\x0b' || c = '\x0c' || c = '\r'

/-- `strings.HasPrefix s pre` : does `s` start with `pre`? -/
def startsWithL : List Char → List Char → Bool
  | _, [] => true
  | [], _ :: _ => false
  | c :: cs, p :: ps => c = p && startsWithL cs ps

/-- `strings.HasSuffix s suf` : does `s` end with `suf`? -/
def endsWithL (s suf : List Char) : Bool :=
  startsWithL s.reverse suf.reverse

/-- `strings.Contains s sub` : does `sub` occur as a substring of `s`? -/
def containsL : List Char → List Char → Bool
  | [], sub => decide (sub = [])
  | c :: cs, sub => startsWithL (c :: cs) sub || containsL cs sub

/-- `strings.TrimSuffix s suf` : drop a trailing `suf` if present. -/
def trimSuffixL (s suf : List Char) : List Char :=
  if endsWithL s suf then s.take (s.length - suf.length) else s

/-- `strings.TrimSpace` : drop leading and trailing whitespace. -/
def trimSpaceL (s : List Char) : List Char :=
  ((s.dropWhile isGoWS).reverse.dropWhile isGoWS).reverse

/-- `strings.ToUpper` (ASCII-relevant part). -/
def goToUpperL (s : List Char) : List Char := s.map Char.toUpper

/-- `strings.ToLower` (ASCII-relevant part). -/
def goToLowerL (s : List Char) : List Char := s.map Char.toLower

/-- `strings.Split s "/"` : split around every '/' (POSIX separator). -/
def splitSlash : List Char → List (List Char)
  | [] => [[]]
  | c :: cs =>
    if c = '/' then [] :: splitSlash cs
    else
      match splitSlash cs with
      | [] => [[c]]
      | seg :: segs => (c :: seg) :: segs

/-- Inverse of `splitSlash`: interleave '/' between the segments. -/
def joinSlash : List (List Char) → List Char
  | [] => []
  | [seg] => seg
  | seg :: seg2 :: segs => seg ++ '/' :: joinSlash (seg2 :: segs)

/-- `filepath.Base` on the POSIX build: strip trailing slashes, then keep
everything after the last remaining slash. -/
def goBaseL (s : List Char) : List Char :=
  if s = [] then ['.']
  else
    let s1 := (s.reverse.dropWhile (fun c => c = '/')).reverse
    if s1 = [] then ['/']
    else (s1.reverse.takeWhile (fun c => c ≠ '/')).reverse

/-- `strings.Join parts ", "` as used for positional placeholders. -/
def joinCommaSpace : List (List Char) → List Char
  | [] => []
  | [seg] => seg
  | seg :: seg2 :: segs => seg ++ ',' :: ' ' :: joinCommaSpace (seg2 :: segs)

/-! ## Path-to-route compiler (sql_to_http.go, package server) -/

/-- The tables-root marker segment, `"Tables"`. -/
def tablesLit : List Char := "Tables".data

/-- The `"Tables/"` substring that `AssembleEndpoint` probes with
`strings.Contains`. -/
def tablesSlashLit : List Char := "Tables/".data

/-- The four HTTP method directory names scanned by `MethodFromPath`. -/
def httpMethodsLit : List (List Char) :=
  ["GET".data, "POST".data, "PUT".data, "DELETE".data]

/-- One step of `MethodFromPath`'s inner loop: does this path segment,
uppercased, equal one of the four method names?  Returns the method. -/
def segMethod (part : List Char) : Option (List Char) :=
  let u := goToUpperL part
  if u = "GET".data then some "GET".data
  else if u = "POST".data then some "POST".data
  else if u = "PUT".data then some "PUT".data
  else if u = "DELETE".data then some "DELETE".data
  else none

/-- `MethodFromPath`'s outer loop: first segment naming an HTTP method. -/
def findMethodSeg : List (List Char) → Option (List Char)
  | [] => none
  | part :: parts =>
    match segMethod part with
    | some m => some m
    | none => findMethodSeg parts

/-- The filename stem `MethodFromPath` falls back to: lowercased base name
with a trailing `.sql` removed. -/
def stemLowerL (sqlPath : List Char) : List Char :=
  trimSuffixL (goToLowerL (goBaseL sqlPath)) ".sql".data

/-- The fallback `switch` of `MethodFromPath`: substring matching of the
lowercased stem against the vocabulary actually present in the code. -/
def inferMethodFromStem (stem : List Char) : List Char :=
  if containsL stem "select".data || containsL stem "get".data ||
     containsL stem "find".data then "GET".data
  else if containsL stem "insert".data || containsL stem "create".data ||
     containsL stem "add".data then "POST".data
  else if containsL stem "update".data || containsL stem "put".data ||
     containsL stem "modify".data then "PUT".data
  else if containsL stem "delete".data || containsL stem "remove".data
     then "DELETE".data
  else "GET".data

/-- `MethodFromPath` : extract the HTTP method from a SQL file path
(method-named segment first, then filename-stem inference). -/
def MethodFromPath (sqlPath : List Char) : List Char :=
  match findMethodSeg (splitSlash sqlPath) with
  | some m => m
  | none => inferMethodFromStem (stemLowerL sqlPath)

/-- Index of the first segment equal to `"Tables"`, as found by the loops
in `RouteFromPath` and `ExtractTableName`. -/
def idxOfTables : List (List Char) → Option Nat
  | [] => none
  | part :: parts =>
    if part = tablesLit then some 0
    else (idxOfTables parts).map (fun i => i + 1)

/-- `RouteFromPath` : convert a SQL file path to an HTTP route path.
Table branch requires `tablesIndex + 3 < len(parts)`. -/
def RouteFromPath (sqlPath baseURL : List Char) : List Char :=
  let parts := splitSlash sqlPath
  match idxOfTables parts with
  | none => baseURL ++ '/' :: trimSuffixL (goBaseL sqlPath) ".sql".data
  | some i =>
    if i + 3 ≥ parts.length then
      baseURL ++ '/' :: trimSuffixL (goBaseL sqlPath) ".sql".data
    else
      baseURL ++ '/' :: parts.getD (i + 1) [] ++
        '/' :: trimSuffixL (parts.getD (parts.length - 1) []) ".sql".data

/-- `ExtractTableName`'s loop over the segments: the segment following the
first `"Tables"` segment that has a successor; `""` otherwise. -/
def findAfterTables : List (List Char) → List Char
  | tbl :: nxt :: rest =>
    if tbl = tablesLit then nxt else findAfterTables (nxt :: rest)
  | _ => []

/-- `ExtractTableName` : table name derived from a SQL file path. -/
def ExtractTableName (sqlPath : List Char) : List Char :=
  findAfterTables (splitSlash sqlPath)

/-- A compiled route descriptor (the data fields of `Endpoint`; the
`http.HandlerFunc` field is modelled separately). -/
structure Endpoint where
  path : List Char
  method : List Char
  sqlPath : List Char
  tableName : List Char
  isUniversal : Bool
  deriving DecidableEq, Repr

/-- `AssembleEndpoint` : build the descriptor for one SQL file.  Note that
`IsUniversal` is `!strings.Contains(sqlPath, "Tables/")` on the raw path,
while `TableName` comes from exact segment matching. -/
def AssembleEndpoint (sqlPath baseURL : List Char) : Endpoint :=
  { path := RouteFromPath sqlPath baseURL
    method := MethodFromPath sqlPath
    sqlPath := sqlPath
    tableName := ExtractTableName sqlPath
    isUniversal := ! containsL sqlPath tablesSlashLit }

/-! ## Template processor (ProcessSQLTemplate) -/

/-- A Go `interface\x7b\x7d` value as it appears in a parameter map:
either a string (the only case the template type assertions accept) or
some non-string scalar. -/
inductive GoValue where
  | str : List Char → GoValue
  | num : Int → GoValue
  | boolean : Bool → GoValue
  | null : GoValue
  deriving DecidableEq, Repr

/-- A `map[string]interface\x7b\x7d` parameter set, as an association
list with unique keys. -/
def ParamMap := List (List Char × GoValue)

/-- Go map indexing plus the `.(string)` type assertion: the value of
`key` when present and string-typed. -/
def lookupStr : List (List Char × GoValue) → List Char → Option (List Char)
  | [], _ => none
  | (k, v) :: rest, key =>
    if k = key then
      match v with
      | GoValue.str s => some s
      | _ => none
    else lookupStr rest key

/-- One scan step of `strings.ReplaceAll`, with fuel bounded by the input
length (each step consumes at least one character for the non-empty
patterns the code uses). -/
def replaceAllGo : Nat → List Char → List Char → List Char → List Char
  | _, [], _, _ => []
  | 0, s, _, _ => s
  | fuel + 1, c :: cs, old, new =>
    if startsWithL (c :: cs) old && ! old.isEmpty then
      new ++ replaceAllGo fuel (List.drop old.length (c :: cs)) old new
    else
      c :: replaceAllGo fuel cs old new

/-- `strings.ReplaceAll s old new` : replace every non-overlapping
leftmost occurrence of `old` by `new`. -/
def replaceAllL (s old new : List Char) : List Char :=
  replaceAllGo s.length s old new

/-- The `\x7b\x7btable\x7d\x7d` placeholder. -/
def phTable : List Char := ['{', '{'] ++ "table".data ++ ['}', '}']

/-- The `\x7b\x7bcolumns\x7d\x7d` placeholder. -/
def phColumns : List Char := ['{', '{'] ++ "columns".data ++ ['}', '}']

/-- The `\x7b\x7bvalues\x7d\x7d` placeholder. -/
def phValues : List Char := ['{', '{'] ++ "values".data ++ ['}', '}']

/-- The `\x7b\x7bupdates\x7d\x7d` placeholder. -/
def phUpdates : List Char := ['{', '{'] ++ "updates".data ++ ['}', '}']

/-- `ProcessSQLTemplate` : substitute the recognised placeholders into a
SQL text, with the code's fallbacks (`*` for columns, one `?` per
parameter for values, `column = ?` for updates). -/
def ProcessSQLTemplate (sqlContent tableName : List Char)
    (params : List (List Char × GoValue)) : List Char :=
  let r1 := if tableName ≠ [] then replaceAllL sqlContent phTable tableName
            else sqlContent
  let r2 :=
    if containsL r1 phColumns then
      match lookupStr params "columns".data with
      | some columnList => replaceAllL r1 phColumns columnList
      | none => replaceAllL r1 phColumns "*".data
    else r1
  let r3 :=
    if containsL r2 phValues then
      match lookupStr params "values".data with
      | some valueList => replaceAllL r2 phValues valueList
      | none =>
        replaceAllL r2 phValues
          (joinCommaSpace (List.replicate params.length "?".data))
    else r2
  if containsL r3 phUpdates then
    match lookupStr params "updates".data with
    | some updateList => replaceAllL r3 phUpdates updateList
    | none => replaceAllL r3 phUpdates "column = ?".data
  else r3

/-! ## Relational store wrapper (database.go)

Two divergent implementations exist in the repository: the one at
`pygosql/gosql/database/database.go` (header-row result shape, query
classification by `SELECT` prefix only) and the variant embedded in the
README bundle (map result shape, classification by four keyword
prefixes).  Both classifiers are embedded. -/

/-- Case-insensitive "begins with" for an upper-case pattern, written the
way the specification words it (compare character by character after
upcasing the subject).  Used as the spec-side formulation. -/
def startsWithCI : List Char → List Char → Bool
  | _, [] => true
  | [], _ :: _ => false
  | c :: cs, p :: ps => c.toUpper = p && startsWithCI cs ps

/-- Classifier of the canonical store
(`pygosql/gosql/database/database.go`): after trimming, upper-case the
statement and test only for a `SELECT` prefix. -/
def canonicalIsQuery (query : List Char) : Bool :=
  startsWithL (goToUpperL (trimSpaceL query)) "SELECT".data

/-- Classifier of the variant store (README bundle `database.go`): after
trimming, upper-case the statement and test for a `SELECT`, `WITH`,
`EXPLAIN` or `PRAGMA` prefix. -/
def variantIsQuery (query : List Char) : Bool :=
  let u := goToUpperL (trimSpaceL query)
  startsWithL u "SELECT".data || startsWithL u "WITH".data ||
  startsWithL u "EXPLAIN".data || startsWithL u "PRAGMA".data

/-- Modelled from the spec's words: a statement is a query iff, after
trimming whitespace, it case-insensitively begins with `SELECT`, `WITH`,
`EXPLAIN`, or `PRAGMA`. -/
def specIsQuery (query : List Char) : Bool :=
  let t := trimSpaceL query
  startsWithCI t "SELECT".data || startsWithCI t "WITH".data ||
  startsWithCI t "EXPLAIN".data || startsWithCI t "PRAGMA".data

/-! ### The schema-fixing transform

`ApplySchema` rewrites the schema with the Go regexp
`(?i)CREATE\s+TABLE\s+` replaced by `"CREATE TABLE IF NOT EXISTS "`.
The pattern is anchored nowhere, scanned leftmost, and its two `\s+`
are effectively maximal-munch (the character after the whitespace run
must be a letter, so no backtracking shortens them). -/

/-- Strip a case-insensitive keyword (given lower-case) off the head. -/
def stripKeywordCI : List Char → List Char → Option (List Char)
  | [], l => some l
  | _ :: _, [] => none
  | p :: ps, c :: cs => if c.toLower = p then stripKeywordCI ps cs else none

/-- Length of the leading regexp-whitespace run. -/
def wsRunLen (l : List Char) : Nat := (l.takeWhile isRegexWS).length

/-- Anchored match of `(?i)CREATE\s+TABLE\s+` at the head of `l`:
returns the number of characters matched. -/
def matchCTLen (l : List Char) : Option Nat :=
  match stripKeywordCI "create".data l with
  | none => none
  | some l1 =>
    let n1 := wsRunLen l1
    if n1 = 0 then none
    else
      match stripKeywordCI "table".data (l1.drop n1) with
      | none => none
      | some l2 =>
        let n2 := wsRunLen l2
        if n2 = 0 then none else some (6 + n1 + 5 + n2)

/-- The replacement text, `"CREATE TABLE IF NOT EXISTS "`. -/
def ctReplacement : List Char := "CREATE TABLE IF NOT EXISTS ".data

/-- Leftmost scan of `regexp.ReplaceAllString` for the CREATE TABLE
pattern, with fuel bounded by the input length (every step consumes at
least one character). -/
def fixGo : Nat → List Char → List Char
  | _, [] => []
  | 0, l => l
  | fuel + 1, c :: cs =>
    match matchCTLen (c :: cs) with
    | some k => ctReplacement ++ fixGo fuel (List.drop k (c :: cs))
    | none => c :: fixGo fuel cs

/-- The schema-fixing transform of `ApplySchema`: every case-insensitive
`CREATE TABLE` becomes `CREATE TABLE IF NOT EXISTS`. -/
def fixSchema (schema : List Char) : List Char :=
  fixGo schema.length schema

/-- Does the CREATE TABLE pattern match anywhere in `l`? -/
def hasCTMatch : List Char → Bool
  | [] => false
  | c :: cs => (matchCTLen (c :: cs)).isSome || hasCTMatch cs

/-! ## Store state machine (Close / ExecSQL / ApplySchema / IsHealthy)

The mutex and the `*sql.DB` handle are abstracted away; what remains is
the `closed` flag every method consults, plus an oracle for the engine's
behaviour on the paths that reach it. -/

/-- Observable state of a `Database` value: just its `closed` flag (the
only field any of the guarded methods writes or reads for control flow). -/
structure DBState where
  closed : Bool
  deriving DecidableEq, Repr

/-- Behaviour of the underlying SQLite engine, abstracted: outcomes of
`DB.Query` / `DB.Exec` / `DB.Ping` for given statement text. -/
structure DBOracle where
  execOK : List Char → Bool
  pingOK : Bool

/-- Result of one `ExecSQL` call: the error it returns, or the branch it
executed (query vs mutation). -/
inductive ExecOutcome where
  | err : List Char → ExecOutcome
  | queryBranch : ExecOutcome
  | mutationBranch : ExecOutcome
  deriving DecidableEq, Repr

/-- `Database.ExecSQL` of the canonical store: closed check, emptiness
check, then classification into the query or mutation branch.  The state
is returned unchanged (`ExecSQL` never writes `closed`). -/
def execSQLStep (st : DBState) (query : List Char) : ExecOutcome × DBState :=
  if st.closed then (ExecOutcome.err "database is closed".data, st)
  else
    let q := trimSpaceL query
    if q = [] then (ExecOutcome.err "empty query".data, st)
    else if canonicalIsQuery q then (ExecOutcome.queryBranch, st)
    else (ExecOutcome.mutationBranch, st)

/-- `strings.Split s "\\n"` : split a schema into its lines. -/
def splitNL : List Char → List (List Char)
  | [] => [[]]
  | c :: cs =>
    if c = '\n' then [] :: splitNL cs
    else
      match splitNL cs with
      | [] => [[c]]
      | seg :: segs => (c :: seg) :: segs

/-- `strings.Join lines "\\n"`. -/
def joinNL : List (List Char) → List Char
  | [] => []
  | [seg] => seg
  | seg :: seg2 :: segs => seg ++ '\n' :: joinNL (seg2 :: segs)

/-- `strings.Split s ";"` : split the schema on statement terminators. -/
def splitOnSemi : List Char → List (List Char)
  | [] => [[]]
  | c :: cs =>
    if c = ';' then [] :: splitOnSemi cs
    else
      match splitOnSemi cs with
      | [] => [[c]]
      | seg :: segs => (c :: seg) :: segs

/-- `strings.Index s "--"` style search: position of the first inline
comment marker, as presence plus prefix before it. -/
def dropFromDashDash : List Char → List Char
  | [] => []
  | c :: cs =>
    if startsWithL (c :: cs) "--".data then []
    else c :: dropFromDashDash cs

/-- `cleanSQLSchema` : strip comment lines, inline comments and blank
lines from a schema, joining the surviving trimmed lines with newlines. -/
def cleanSQLSchema (schema : List Char) : List Char :=
  let lines := splitNL schema
  let cleaned := lines.filterMap (fun line =>
    let trimmed := trimSpaceL line
    if trimmed = [] then none
    else if startsWithL trimmed "--".data then none
    else if containsL trimmed "--".data then
      let cut := trimSpaceL (dropFromDashDash trimmed)
      if cut = [] then none else some cut
    else some trimmed)
  joinNL cleaned

/-- `Database.ApplySchema`: closed check first, then the schema pipeline
(blank schema returns nil early, comments are stripped, the CREATE TABLE
transform is applied, the result is split on `;` and executed statement
by statement with the engine abstracted by the oracle).  The state is
returned unchanged. -/
def applySchemaStep (oracle : DBOracle) (st : DBState) (schema : List Char) :
    Option (List Char) × DBState :=
  if st.closed then (some "database is closed".data, st)
  else if trimSpaceL schema = [] then (none, st)
  else if (splitOnSemi (fixSchema (cleanSQLSchema schema))).all
      (fun stmt => trimSpaceL stmt = [] || oracle.execOK (trimSpaceL stmt))
    then (none, st) else (some "failed to execute schema statement".data, st)

/-- `Database.Close`: mark closed (idempotent), never unset. -/
def closeStep (_ : DBState) : DBState := { closed := true }

/-- `Database.IsHealthy`: false once closed, else the ping result. -/
def isHealthyStep (oracle : DBOracle) (st : DBState) : Bool :=
  if st.closed then false else oracle.pingOK

/-- The store's operations, as a labelled transition alphabet. -/
inductive DBOp where
  | execSQL : List Char → DBOp
  | applySchema : List Char → DBOp
  | close : DBOp
  | isHealthy : DBOp

/-- Effect of one operation on the `closed` flag. -/
def dbStep (oracle : DBOracle) (st : DBState) : DBOp → DBState
  | DBOp.execSQL q => (execSQLStep st q).2
  | DBOp.applySchema s => (applySchemaStep oracle st s).2
  | DBOp.close => closeStep st
  | DBOp.isHealthy => st

/-! ## Request execution adapter (handlers and parameter extraction) -/

/-- An inbound HTTP request as the handlers observe it: its method, its
parsed query string (each key with its list of values, in order), and the
result of JSON-decoding its body (`none` when the body is absent or
malformed, `some` assoc list when it decodes to an object). -/
structure GoRequest where
  method : List Char
  queryParams : List (List Char × List (List Char))
  bodyJSON : Option (List (List Char × GoValue))

/-- Go map assignment `m[k] = v` on the association-list model: replace
the existing binding or append a new one. -/
def mapSet : List (List Char × GoValue) → List Char → GoValue →
    List (List Char × GoValue)
  | [], k, v => [(k, v)]
  | (k0, v0) :: rest, k, v =>
    if k0 = k then (k, v) :: rest else (k0, v0) :: mapSet rest k v

/-- The query-string pass of `ExtractRequestParams`: every key takes its
first value (keys with an empty value list are skipped). -/
def queryPass : List (List Char × List (List Char)) →
    List (List Char × GoValue)
  | [] => []
  | (key, values) :: rest =>
    match values with
    | [] => queryPass rest
    | v :: _ => mapSet (queryPass rest) key (GoValue.str v)

/-- The body pass: merge the decoded JSON object's bindings on top. -/
def bodyPass (params : List (List Char × GoValue)) :
    List (List Char × GoValue) → List (List Char × GoValue)
  | [] => params
  | (k, v) :: rest => bodyPass (mapSet params k v) rest

/-- `ExtractRequestParams` : parameters from query string and body.  The
decode error of a malformed body is discarded (`if err == nil` merge), and
the function's error result is the literal `nil` on every path. -/
def ExtractRequestParams (r : GoRequest) :
    List (List Char × GoValue) × Option (List Char) :=
  let params := queryPass r.queryParams
  let params :=
    if r.method = "POST".data || r.method = "PUT".data then
      match r.bodyJSON with
      | some body => bodyPass params body
      | none => params
    else params
  (params, none)

/-- What a handler invocation did: the HTTP status it wrote, whether it
reached SQL execution (`ExecuteSQLFromPath` / `database.ExecSQL`), and
the envelope's success flag. -/
structure HandlerOutcome where
  status : Nat
  executedSQL : Bool
  success : Bool
  deriving DecidableEq, Repr

/-- The handler produced by `CreateHandler` (sql_to_http.go): CORS
preflight short-circuit, parameter extraction, then unconditional SQL
execution — the request method is never compared with the route's
compiled method.  `exec` abstracts `ExecuteSQLFromPath`. -/
def CreateHandler
    (exec : List (List Char × GoValue) → Except (List Char) Unit)
    (r : GoRequest) : HandlerOutcome :=
  if r.method = "OPTIONS".data then
    { status := 200, executedSQL := false, success := true }
  else
    match ExtractRequestParams r with
    | (_, some _) => { status := 400, executedSQL := false, success := false }
    | (params, none) =>
      match exec params with
      | Except.error _ =>
        { status := 500, executedSQL := true, success := false }
      | Except.ok _ =>
        { status := 200, executedSQL := true, success := true }

/-- The handler produced by the deprecated `httpsetup.createHandler`:
after the CORS/preflight step it validates the request method against the
route's expected method and answers 405 without executing on a mismatch.
`exec` abstracts `database.ExecSQL` on the processed statement. -/
def createHandlerDeprecated (expectedMethod : List Char)
    (exec : Unit → Except (List Char) Unit) (r : GoRequest) :
    HandlerOutcome :=
  if r.method = "OPTIONS".data then
    { status := 200, executedSQL := false, success := true }
  else if r.method ≠ expectedMethod then
    { status := 405, executedSQL := false, success := false }
  else
    match exec () with
    | Except.error _ => { status := 500, executedSQL := true, success := false }
    | Except.ok _ => { status := 200, executedSQL := true, success := true }

/-! ## Helper lemmas -/

theorem containsL_cons_false {c : Char} {cs sub : List Char}
    (h : containsL (c :: cs) sub = false) : containsL cs sub = false := by
  simp only [containsL, Bool.or_eq_false_iff] at h
  exact h.2

theorem startsWithL_cons_false {c : Char} {cs sub : List Char}
    (h : containsL (c :: cs) sub = false) : startsWithL (c :: cs) sub = false := by
  simp only [containsL, Bool.or_eq_false_iff] at h
  exact h.1

theorem replaceAllGo_of_not_contains (old new : List Char) :
    ∀ (fuel : Nat) (s : List Char), containsL s old = false →
      replaceAllGo fuel s old new = s := by
  intro fuel
  induction fuel with
  | zero => intro s _; cases s <;> simp [replaceAllGo]
  | succ n ih =>
    intro s hs
    cases s with
    | nil => simp [replaceAllGo]
    | cons c cs =>
      have h1 := startsWithL_cons_false hs
      have h2 := containsL_cons_false hs
      simp [replaceAllGo, h1, ih cs h2]

theorem replaceAllL_of_not_contains {s old : List Char} (new : List Char)
    (h : containsL s old = false) : replaceAllL s old new = s :=
  replaceAllGo_of_not_contains old new s.length s h

/-- C8: template processing is the identity on SQL text containing none
of the recognised placeholders: for every such text, every table name and
every parameter set, `ProcessSQLTemplate` returns its input unchanged (in
particular, unrecognised template tokens pass through untouched). -/
theorem C8_template_identity (sql tableName : List Char)
    (params : List (List Char × GoValue))
    (h1 : containsL sql phTable = false)
    (h2 : containsL sql phColumns = false)
    (h3 : containsL sql phValues = false)
    (h4 : containsL sql phUpdates = false) :
    ProcessSQLTemplate sql tableName params = sql := by
  have e1 : (if tableName ≠ [] then replaceAllL sql phTable tableName else sql) = sql := by
    split
    · exact replaceAllL_of_not_contains _ h1
    · rfl
  simp [ProcessSQLTemplate, e1, h2, h3, h4]

/-- C8 witness: a statement carrying only the unrecognised token
`\x7b\x7bfoo\x7d\x7d` survives template processing verbatim. -/
theorem C8_template_identity_witness :
    ProcessSQLTemplate
      ("SELECT ".data ++ ['{', '{'] ++ "foo".data ++ ['}', '}'] ++ " FROM t".data)
      "users".data [("columns".data, GoValue.str "id".data)]
    = "SELECT ".data ++ ['{', '{'] ++ "foo".data ++ ['}', '}'] ++ " FROM t".data :=
  C8_template_identity _ _ _ (by decide) (by decide) (by decide) (by decide)

/-- C9: once the store is closed, every `ExecSQL` and `ApplySchema` call
fails with the database-is-closed error, `IsHealthy` reports false, and no
operation (including further `Close` calls) ever clears the closed flag:
Closed is a terminal state. -/
theorem C9_closed_is_terminal (oracle : DBOracle) (st : DBState)
    (q s : List Char) (op : DBOp) (h : st.closed = true) :
    (execSQLStep st q).1 = ExecOutcome.err "database is closed".data ∧
    (applySchemaStep oracle st s).1 = some "database is closed".data ∧
    isHealthyStep oracle st = false ∧
    (dbStep oracle st op).closed = true := by
  refine ⟨?_, ?_, ?_, ?_⟩
  · simp [execSQLStep, h]
  · simp [applySchemaStep, h]
  · simp [isHealthyStep, h]
  · cases op <;> simp [dbStep, execSQLStep, applySchemaStep, closeStep, h]

/-- C9 witness: the closed-store behaviour at a concrete state, statement
and operation. -/
theorem C9_closed_is_terminal_witness :
    (execSQLStep ⟨true⟩ "SELECT 1".data).1
        = ExecOutcome.err "database is closed".data ∧
    (applySchemaStep ⟨fun _ => true, true⟩ ⟨true⟩ "CREATE TABLE t (x);".data).1
        = some "database is closed".data ∧
    isHealthyStep ⟨fun _ => true, true⟩ ⟨true⟩ = false ∧
    (dbStep ⟨fun _ => true, true⟩ ⟨true⟩ (DBOp.execSQL "SELECT 1".data)).closed
        = true :=
  C9_closed_is_terminal ⟨fun _ => true, true⟩ ⟨true⟩ "SELECT 1".data
    "CREATE TABLE t (x);".data (DBOp.execSQL "SELECT 1".data) rfl

/-- C10: request parameter extraction is total and never reports an
error — the error component is `nil` for every request; each
query-string key contributes its first value; and for a request whose
body fails to decode (absent or malformed JSON), the result is exactly
the query-string parameters, with no 400 malformed-input failure. -/
theorem C10_extract_params_total (r : GoRequest) :
    (ExtractRequestParams r).2 = none ∧
    (r.bodyJSON = none → (ExtractRequestParams r).1 = queryPass r.queryParams) ∧
    (∀ (k v : List Char) (vs : List (List Char)),
      queryPass [(k, v :: vs)] = [(k, GoValue.str v)]) := by
  refine ⟨?_, ?_, ?_⟩
  · simp [ExtractRequestParams]
  · intro hb
    simp only [ExtractRequestParams, hb]
    split <;> rfl
  · intro k v vs
    rfl

/-- C10 witness: a POST request with a malformed body and one
query-string key with two values yields the first value and no error. -/
theorem C10_extract_params_total_witness :
    (ExtractRequestParams ⟨"POST".data, [("id".data, ["1".data, "2".data])], none⟩).2
      = none ∧
    (ExtractRequestParams ⟨"POST".data, [("id".data, ["1".data, "2".data])], none⟩).1
      = queryPass [("id".data, ["1".data, "2".data])] := by
  have h := C10_extract_params_total
    ⟨"POST".data, [("id".data, ["1".data, "2".data])], none⟩
  exact ⟨h.1, h.2.1 rfl⟩

/-- C1 counterexample: a GET request sent to a route compiled for POST
(`Tables/users/POST/insert.sql` compiles to method POST) is NOT rejected
with 405 by the live handler: `CreateHandler` runs the SQL and answers
200.  The claim's rejection behaviour fails at this input. -/
theorem C1_counterexample :
    MethodFromPath "Tables/users/POST/insert.sql".data = "POST".data ∧
    CreateHandler (fun _ => Except.ok ()) ⟨"GET".data, [], none⟩
      = { status := 200, executedSQL := true, success := true } := by
  constructor
  · decide
  · rfl

/-- C1 amended: only the deprecated `httpsetup` handler rejects a
method-mismatched request with 405 and skips execution; the live
`CreateHandler` of sql_to_http.go never compares the request method with
the route's compiled method and reaches SQL execution for every
non-OPTIONS request. -/
theorem C1_amended (expected : List Char) (r : GoRequest)
    (execD : Unit → Except (List Char) Unit)
    (execC : List (List Char × GoValue) → Except (List Char) Unit)
    (hopt : r.method ≠ "OPTIONS".data) (hmm : r.method ≠ expected) :
    createHandlerDeprecated expected execD r
      = { status := 405, executedSQL := false, success := false } ∧
    (CreateHandler execC r).executedSQL = true := by
  constructor
  · simp [createHandlerDeprecated, hopt, hmm]
  · simp only [CreateHandler, ExtractRequestParams, if_neg hopt]
    split <;> simp_all

/-- C1 amended witness: the deprecated handler answers 405 to a GET
request on a POST route while the live handler executes it. -/
theorem C1_amended_witness :
    createHandlerDeprecated "POST".data (fun _ => Except.ok ())
        ⟨"GET".data, [], none⟩
      = { status := 405, executedSQL := false, success := false } ∧
    (CreateHandler (fun _ => Except.error "boom".data)
        ⟨"GET".data, [], none⟩).executedSQL = true :=
  C1_amended "POST".data ⟨"GET".data, [], none⟩ (fun _ => Except.ok ())
    (fun _ => Except.error "boom".data) (by decide) (by decide)

theorem hasCTMatch_cons_none {c : Char} {cs : List Char}
    (h : hasCTMatch (c :: cs) = false) :
    matchCTLen (c :: cs) = none ∧ hasCTMatch cs = false := by
  simp only [hasCTMatch, Bool.or_eq_false_iff] at h
  exact ⟨Option.not_isSome_iff_eq_none.mp (by simp [h.1]), h.2⟩

theorem fixGo_of_no_match :
    ∀ (fuel : Nat) (s : List Char), hasCTMatch s = false → fixGo fuel s = s := by
  intro fuel
  induction fuel with
  | zero => intro s _; cases s <;> simp [fixGo]
  | succ n ih =>
    intro s hs
    cases s with
    | nil => simp [fixGo]
    | cons c cs =>
      obtain ⟨h1, h2⟩ := hasCTMatch_cons_none hs
      simp [fixGo, h1, ih cs h2]

/-- C3 counterexample: the CREATE TABLE rewriting transform is not
idempotent — applied twice to a one-table schema it rewrites its own
output's `CREATE TABLE ` again and produces a doubled `IF NOT EXISTS`. -/
theorem C3_counterexample :
    fixSchema (fixSchema "CREATE TABLE users (id INTEGER);".data)
      ≠ fixSchema "CREATE TABLE users (id INTEGER);".data ∧
    fixSchema (fixSchema "CREATE TABLE users (id INTEGER);".data)
      = "CREATE TABLE IF NOT EXISTS IF NOT EXISTS users (id INTEGER);".data := by
  constructor
  · decide
  · decide

/-- C3 amended: the schema-fixing transform is idempotent only on schema
strings in which the pattern `CREATE TABLE` (case-insensitively, with any
whitespace between the words) does not occur: there it is the identity,
hence applying it twice equals applying it once.  On any schema that does
contain `CREATE TABLE` the transform changes its own output again (see
the counterexample). -/
theorem C3_amended (s : List Char) (h : hasCTMatch s = false) :
    fixSchema s = s ∧ fixSchema (fixSchema s) = fixSchema s := by
  have e : fixSchema s = s := fixGo_of_no_match s.length s h
  exact ⟨e, by rw [e, e]⟩

/-- C3 amended witness: a schema with no CREATE TABLE statement passes
through the transform unchanged, twice. -/
theorem C3_amended_witness :
    fixSchema "INSERT INTO t VALUES (1);".data = "INSERT INTO t VALUES (1);".data ∧
    fixSchema (fixSchema "INSERT INTO t VALUES (1);".data)
      = fixSchema "INSERT INTO t VALUES (1);".data :=
  C3_amended "INSERT INTO t VALUES (1);".data (by decide)

theorem startsWithL_toUpper :
    ∀ (l pat : List Char), startsWithL (goToUpperL l) pat = startsWithCI l pat := by
  intro l
  induction l with
  | nil => intro pat; cases pat <;> rfl
  | cons c cs ih =>
    intro pat
    cases pat with
    | nil => rfl
    | cons p ps =>
      have h := ih ps
      unfold goToUpperL at h
      simp [goToUpperL, startsWithL, startsWithCI, h]

theorem dropWhile_head_not_ws :
    ∀ (l : List Char) (c : Char) (rest : List Char),
      List.dropWhile isGoWS l = c :: rest → isGoWS c = false := by
  intro l
  induction l with
  | nil => intro c rest h; simp at h
  | cons d l' ih =>
    intro c rest h
    rw [List.dropWhile_cons] at h
    by_cases hd : isGoWS d = true
    · rw [if_pos hd] at h
      exact ih c rest h
    · rw [if_neg hd] at h
      obtain ⟨h1, _⟩ := List.cons.injEq d l' c rest ▸ h
      rw [← h1]
      exact Bool.not_eq_true _ ▸ hd

theorem dropWhile_trim_fixed (l : List Char) :
    List.dropWhile isGoWS (List.rdropWhile isGoWS (List.dropWhile isGoWS l))
      = List.rdropWhile isGoWS (List.dropWhile isGoWS l) := by
  cases ht : List.rdropWhile isGoWS (List.dropWhile isGoWS l) with
  | nil => simp
  | cons c t' =>
    rw [List.dropWhile_cons]
    suffices hc : isGoWS c = false by simp [hc]
    have hpre := List.rdropWhile_prefix isGoWS (List.dropWhile isGoWS l)
    rw [ht] at hpre
    obtain ⟨u, hu⟩ := hpre
    exact dropWhile_head_not_ws l c (t' ++ u) (by rw [← hu]; simp)

theorem trimSpaceL_idem (s : List Char) :
    trimSpaceL (trimSpaceL s) = trimSpaceL s := by
  have e : ∀ t : List Char,
      trimSpaceL t = List.rdropWhile isGoWS (List.dropWhile isGoWS t) :=
    fun t => rfl
  rw [e, e, dropWhile_trim_fixed, List.rdropWhile_idempotent]

/-- C2 counterexample: the canonical store's `ExecSQL`
(pygosql/gosql/database/database.go) executes a `WITH` statement through
the mutation branch, although by the claim's four-keyword rule it is a
query. -/
theorem C2_counterexample :
    (execSQLStep ⟨false⟩ "WITH t AS (SELECT 1) SELECT * FROM t".data).1
      = ExecOutcome.mutationBranch ∧
    specIsQuery "WITH t AS (SELECT 1) SELECT * FROM t".data = true := by
  constructor
  · decide
  · decide

/-- C2 amended: the four-keyword classification (query iff the trimmed
statement case-insensitively begins with SELECT, WITH, EXPLAIN or PRAGMA)
is implemented only by the variant store bundled with the README; the
canonical store at pygosql/gosql/database/database.go classifies a
statement as a query iff its trimmed text case-insensitively begins with
SELECT alone, executing all other statements (including WITH / EXPLAIN /
PRAGMA) as mutations. -/
theorem C2_amended (q : List Char) (st : DBState) :
    variantIsQuery q = specIsQuery q ∧
    canonicalIsQuery q = startsWithCI (trimSpaceL q) "SELECT".data ∧
    (st.closed = false → trimSpaceL q ≠ [] →
      ((execSQLStep st q).1 = ExecOutcome.queryBranch ↔
        canonicalIsQuery q = true)) := by
  refine ⟨?_, ?_, ?_⟩
  · simp [variantIsQuery, specIsQuery, startsWithL_toUpper]
  · simp [canonicalIsQuery, startsWithL_toUpper]
  · intro hclosed hne
    have hcan : canonicalIsQuery (trimSpaceL q) = canonicalIsQuery q := by
      unfold canonicalIsQuery
      rw [trimSpaceL_idem]
    simp only [execSQLStep, hclosed, Bool.false_eq_true, if_false, if_neg hne]
    rw [hcan]
    by_cases hc : canonicalIsQuery q = true
    · simp [hc]
    · simp [hc]

/-- C2 amended witness: at a concrete open store and statement, the query
branch is taken exactly when the canonical classifier accepts it. -/
theorem C2_amended_witness :
    variantIsQuery "  select 1".data = specIsQuery "  select 1".data ∧
    ((execSQLStep ⟨false⟩ "  select 1".data).1 = ExecOutcome.queryBranch ↔
      canonicalIsQuery "  select 1".data = true) := by
  have h := C2_amended "  select 1".data ⟨false⟩
  exact ⟨h.1, h.2.2 rfl (by decide)⟩

theorem segMethod_none {part : List Char}
    (h : goToUpperL part ∉ httpMethodsLit) : segMethod part = none := by
  simp only [httpMethodsLit, List.mem_cons, List.mem_singleton, not_or] at h
  simp [segMethod, h.1, h.2.1, h.2.2.1, h.2.2.2]

theorem findMethodSeg_none :
    ∀ (parts : List (List Char)),
      (∀ part ∈ parts, goToUpperL part ∉ httpMethodsLit) →
      findMethodSeg parts = none := by
  intro parts
  induction parts with
  | nil => intro _; rfl
  | cons part rest ih =>
    intro h
    have h0 : segMethod part = none := segMethod_none (h part (by simp))
    simp [findMethodSeg, h0]
    exact ih (fun q hq => h q (by simp [hq]))

/-- C5 counterexample: the filename stem `new` is claimed to infer POST,
but the live `MethodFromPath` vocabulary has no `new` entry and the path
`new.sql` falls through to the default GET. -/
theorem C5_counterexample :
    MethodFromPath "new.sql".data = "GET".data ∧
    "GET".data ≠ "POST".data := by
  constructor
  · decide
  · decide

/-- C5 amended: outside method-named directories the method is inferred
from the lowercased filename stem by substring matching against the
vocabularies actually in the code — `select|get|find → GET`,
`insert|create|add → POST`, `update|put|modify → PUT`,
`delete|remove → DELETE` — tried in that order, with GET as the default;
`read`, `list`, `new`, `upsert`, `edit`, `drop` and `destroy` are not
recognised and fall through to the default. -/
theorem C5_amended (p : List Char)
    (hseg : ∀ part ∈ splitSlash p, goToUpperL part ∉ httpMethodsLit) :
    ((containsL (stemLowerL p) "select".data || containsL (stemLowerL p) "get".data ||
        containsL (stemLowerL p) "find".data) = true →
      MethodFromPath p = "GET".data) ∧
    ((containsL (stemLowerL p) "select".data || containsL (stemLowerL p) "get".data ||
        containsL (stemLowerL p) "find".data) = false →
      (containsL (stemLowerL p) "insert".data || containsL (stemLowerL p) "create".data ||
        containsL (stemLowerL p) "add".data) = true →
      MethodFromPath p = "POST".data) ∧
    ((containsL (stemLowerL p) "select".data || containsL (stemLowerL p) "get".data ||
        containsL (stemLowerL p) "find".data) = false →
      (containsL (stemLowerL p) "insert".data || containsL (stemLowerL p) "create".data ||
        containsL (stemLowerL p) "add".data) = false →
      (containsL (stemLowerL p) "update".data || containsL (stemLowerL p) "put".data ||
        containsL (stemLowerL p) "modify".data) = true →
      MethodFromPath p = "PUT".data) ∧
    ((containsL (stemLowerL p) "select".data || containsL (stemLowerL p) "get".data ||
        containsL (stemLowerL p) "find".data) = false →
      (containsL (stemLowerL p) "insert".data || containsL (stemLowerL p) "create".data ||
        containsL (stemLowerL p) "add".data) = false →
      (containsL (stemLowerL p) "update".data || containsL (stemLowerL p) "put".data ||
        containsL (stemLowerL p) "modify".data) = false →
      (containsL (stemLowerL p) "delete".data || containsL (stemLowerL p) "remove".data) = true →
      MethodFromPath p = "DELETE".data) ∧
    ((containsL (stemLowerL p) "select".data || containsL (stemLowerL p) "get".data ||
        containsL (stemLowerL p) "find".data) = false →
      (containsL (stemLowerL p) "insert".data || containsL (stemLowerL p) "create".data ||
        containsL (stemLowerL p) "add".data) = false →
      (containsL (stemLowerL p) "update".data || containsL (stemLowerL p) "put".data ||
        containsL (stemLowerL p) "modify".data) = false →
      (containsL (stemLowerL p) "delete".data || containsL (stemLowerL p) "remove".data) = false →
      MethodFromPath p = "GET".data) := by
  have hfind : findMethodSeg (splitSlash p) = none := findMethodSeg_none _ hseg
  have hm : MethodFromPath p = inferMethodFromStem (stemLowerL p) := by
    simp [MethodFromPath, hfind]
  refine ⟨?_, ?_, ?_, ?_, ?_⟩ <;> intros <;>
    simp_all [inferMethodFromStem, hm]

/-- C5 amended witness: `db/insert_user.sql` has no method segment, its
stem matches the POST vocabulary and none of the GET one, and the
inferred method is POST. -/
theorem C5_amended_witness :
    MethodFromPath "db/insert_user.sql".data = "POST".data := by
  have h := C5_amended "db/insert_user.sql".data (by decide)
  exact h.2.1 (by decide) (by decide)

theorem startsWithL_self_append :
    ∀ (pre rest : List Char), startsWithL (pre ++ rest) pre = true := by
  intro pre
  induction pre with
  | nil => intro rest; cases rest <;> rfl
  | cons c cs ih => intro rest; simp [startsWithL, ih rest]

theorem containsL_of_startsWithL {s sub : List Char}
    (h : startsWithL s sub = true) : containsL s sub = true := by
  cases s with
  | nil =>
    cases sub with
    | nil => rfl
    | cons p ps => simp [startsWithL] at h
  | cons c cs => simp [containsL, h]

theorem containsL_append_left :
    ∀ (a rest sub : List Char), containsL rest sub = true →
      containsL (a ++ rest) sub = true := by
  intro a
  induction a with
  | nil => intro rest sub h; simpa using h
  | cons c cs ih =>
    intro rest sub h
    simp only [List.cons_append, containsL, Bool.or_eq_true]
    exact Or.inr (ih rest sub h)

theorem splitSlash_ne_nil : ∀ (l : List Char), splitSlash l ≠ [] := by
  intro l
  cases l with
  | nil => simp [splitSlash]
  | cons c cs =>
    by_cases h : c = '/'
    · simp [splitSlash, h]
    · simp only [splitSlash, if_neg h]
      cases splitSlash cs <;> simp

theorem joinSlash_cons (x : List Char) (ys : List (List Char)) (h : ys ≠ []) :
    joinSlash (x :: ys) = x ++ '/' :: joinSlash ys := by
  cases ys with
  | nil => exact absurd rfl h
  | cons y ys' => rfl

theorem joinSlash_splitSlash : ∀ (l : List Char), joinSlash (splitSlash l) = l := by
  intro l
  induction l with
  | nil => rfl
  | cons c cs ih =>
    by_cases h : c = '/'
    · rw [show splitSlash (c :: cs) = [] :: splitSlash cs by simp [splitSlash, h]]
      rw [joinSlash_cons [] (splitSlash cs) (splitSlash_ne_nil cs)]
      simp [h, ih]
    · cases hs : splitSlash cs with
      | nil => exact absurd hs (splitSlash_ne_nil cs)
      | cons seg segs =>
        have hsp : splitSlash (c :: cs) = (c :: seg) :: segs := by
          simp only [splitSlash, if_neg h, hs]
        rw [hsp]
        rw [hs] at ih
        cases segs with
        | nil =>
          simp only [joinSlash] at ih ⊢
          rw [ih]
        | cons s2 t =>
          rw [joinSlash_cons (c :: seg) (s2 :: t) (by simp)]
          rw [joinSlash_cons seg (s2 :: t) (by simp)] at ih
          rw [← ih]
          simp

theorem joinSlash_contains_tables :
    ∀ (l1 : List (List Char)) (nxt : List Char) (l2 : List (List Char)),
      containsL (joinSlash (l1 ++ tablesLit :: nxt :: l2)) tablesSlashLit = true := by
  intro l1
  induction l1 with
  | nil =>
    intro nxt l2
    rw [List.nil_append, joinSlash_cons _ _ (by simp)]
    have hsw : startsWithL (tablesLit ++ '/' :: joinSlash (nxt :: l2))
        tablesSlashLit = true := by
      have e : tablesSlashLit = tablesLit ++ ['/'] := by decide
      rw [e, show tablesLit ++ '/' :: joinSlash (nxt :: l2)
            = (tablesLit ++ ['/']) ++ joinSlash (nxt :: l2) by simp]
      exact startsWithL_self_append _ _
    exact containsL_of_startsWithL hsw
  | cons x l1' ih =>
    intro nxt l2
    rw [List.cons_append, joinSlash_cons _ _ (by simp)]
    have h := ih nxt l2
    have : containsL ('/' :: joinSlash (l1' ++ tablesLit :: nxt :: l2))
        tablesSlashLit = true := by
      simp only [containsL, Bool.or_eq_true]
      exact Or.inr h
    exact containsL_append_left x _ _ this

theorem findAfterTables_decomp :
    ∀ (parts : List (List Char)), findAfterTables parts ≠ [] →
      ∃ l1 nxt l2, parts = l1 ++ tablesLit :: nxt :: l2 ∧
        findAfterTables parts = nxt := by
  intro parts
  induction parts with
  | nil => intro h; exact absurd rfl h
  | cons x rest ih =>
    intro h
    cases rest with
    | nil => exact absurd rfl h
    | cons y rest' =>
      by_cases hx : x = tablesLit
      · refine ⟨[], y, rest', ?_, ?_⟩
        · simp [hx]
        · simp [findAfterTables, hx]
      · have he : findAfterTables (x :: y :: rest') = findAfterTables (y :: rest') := by
          simp [findAfterTables, hx]
        rw [he] at h
        obtain ⟨l1, nxt, l2, hdec, hval⟩ := ih h
        exact ⟨x :: l1, nxt, l2, by simp [hdec], by rw [he, hval]⟩

theorem extractTableName_contains {p : List Char}
    (h : ExtractTableName p ≠ []) : containsL p tablesSlashLit = true := by
  obtain ⟨l1, nxt, l2, hdec, _⟩ :=
    findAfterTables_decomp (splitSlash p) h
  have := joinSlash_contains_tables l1 nxt l2
  rw [← hdec, joinSlash_splitSlash] at this
  exact this

/-- C4 counterexample: `AssembleEndpoint` on
`xTables/users/GET/select.sql` (where `Tables/` occurs only inside the
longer segment `xTables`) yields a descriptor with `isUniversal = false`
and an empty table name, violating the claimed invariant. -/
theorem C4_counterexample :
    (AssembleEndpoint "xTables/users/GET/select.sql".data "/api/v1".data).isUniversal
      = false ∧
    (AssembleEndpoint "xTables/users/GET/select.sql".data "/api/v1".data).tableName
      = [] := by
  constructor
  · decide
  · decide

/-- C4 amended: one direction of the claimed invariant holds —
`AssembleEndpoint` never produces a descriptor that is universal yet
carries a table name (a non-empty table name forces
`isUniversal = false`).  The other direction fails: a path containing
`Tables/` inside a longer segment gives `isUniversal = false` with an
empty table name (see the counterexample). -/
theorem C4_amended (sqlPath baseURL : List Char)
    (h : (AssembleEndpoint sqlPath baseURL).tableName ≠ []) :
    (AssembleEndpoint sqlPath baseURL).isUniversal = false := by
  have hc : containsL sqlPath tablesSlashLit = true :=
    extractTableName_contains (p := sqlPath) h
  simp [AssembleEndpoint, hc]

/-- C4 amended witness: a well-formed table path has a table name and is
not universal. -/
theorem C4_amended_witness :
    (AssembleEndpoint "db/Tables/users/GET/select.sql".data "/api/v1".data).tableName
        ≠ [] ∧
    (AssembleEndpoint "db/Tables/users/GET/select.sql".data "/api/v1".data).isUniversal
        = false := by
  refine ⟨by decide, ?_⟩
  exact C4_amended "db/Tables/users/GET/select.sql".data "/api/v1".data (by decide)

theorem findAfterTables_of_decomp :
    ∀ (l1 : List (List Char)) (nxt : List Char) (l2 : List (List Char)),
      tablesLit ∉ l1 →
      findAfterTables (l1 ++ tablesLit :: nxt :: l2) = nxt := by
  intro l1
  induction l1 with
  | nil => intro nxt l2 _; simp [findAfterTables]
  | cons x l1' ih =>
    intro nxt l2 h
    have hx : x ≠ tablesLit := by
      intro he; exact h (by simp [he])
    have hne : l1' ++ tablesLit :: nxt :: l2 ≠ [] := by simp
    cases hl : l1' ++ tablesLit :: nxt :: l2 with
    | nil => exact absurd hl hne
    | cons y rest =>
      have : findAfterTables (x :: y :: rest) = findAfterTables (y :: rest) := by
        simp [findAfterTables, hx]
      rw [show x :: l1' ++ tablesLit :: nxt :: l2 = x :: (y :: rest) by simp [hl], this,
        ← hl]
      exact ih nxt l2 (fun hm => h (by simp [hm]))

theorem findAfterTables_of_not_mem :
    ∀ (parts : List (List Char)), tablesLit ∉ parts →
      findAfterTables parts = [] := by
  intro parts
  induction parts with
  | nil => intro _; rfl
  | cons x rest ih =>
    intro h
    cases rest with
    | nil => rfl
    | cons y rest' =>
      have hx : x ≠ tablesLit := fun he => h (by simp [he])
      have : findAfterTables (x :: y :: rest') = findAfterTables (y :: rest') := by
        simp [findAfterTables, hx]
      rw [this]
      exact ih (fun hm => h (by simp [hm]))

/-- C7 counterexample: `myTables/users/GET/select.sql` has no path
segment equal to `Tables`, so by the claim the route should be universal;
the code's raw-substring test sees `Tables/` inside `myTables/` and makes
the descriptor non-universal (with an empty table name). -/
theorem C7_counterexample :
    tablesLit ∉ splitSlash "myTables/users/GET/select.sql".data ∧
    (AssembleEndpoint "myTables/users/GET/select.sql".data "/api/v1".data).isUniversal
      = false := by
  constructor
  · decide
  · decide

/-- C7 amended: when the path's segments decompose as
`l1 ++ ["Tables", T, ...]` with no earlier `Tables` segment, the
descriptor's table name is `T` and it is not universal — that half of the
claim holds.  For a path with no `Tables` segment the table name is
empty, but such a route need not be universal: `isUniversal` is computed
from a raw `Tables/` substring test, which can also fire inside a longer
segment (see the counterexample). -/
theorem C7_amended (p baseURL : List Char) (l1 : List (List Char))
    (nxt : List Char) (l2 : List (List Char))
    (hdec : splitSlash p = l1 ++ tablesLit :: nxt :: l2)
    (hmem : tablesLit ∉ l1) :
    ((AssembleEndpoint p baseURL).tableName = nxt ∧
      (AssembleEndpoint p baseURL).isUniversal = false) ∧
    (∀ q : List Char, tablesLit ∉ splitSlash q → ExtractTableName q = []) := by
  constructor
  · have htn : ExtractTableName p = nxt := by
      unfold ExtractTableName
      rw [hdec]
      exact findAfterTables_of_decomp l1 nxt l2 hmem
    have hc : containsL p tablesSlashLit = true := by
      have := joinSlash_contains_tables l1 nxt l2
      rw [← hdec, joinSlash_splitSlash] at this
      exact this
    exact ⟨by simp [AssembleEndpoint, htn], by simp [AssembleEndpoint, hc]⟩
  · intro q hq
    exact findAfterTables_of_not_mem (splitSlash q) hq

/-- C7 amended witness: the concrete decomposition of
`db/Tables/users/GET/select.sql` gives table `users`, non-universal, and
a no-`Tables` path has an empty table name. -/
theorem C7_amended_witness :
    ((AssembleEndpoint "db/Tables/users/GET/select.sql".data "/api/v1".data).tableName
        = "users".data ∧
      (AssembleEndpoint "db/Tables/users/GET/select.sql".data "/api/v1".data).isUniversal
        = false) ∧
    ExtractTableName "db/GET/health_check.sql".data = [] := by
  have h := C7_amended "db/Tables/users/GET/select.sql".data "/api/v1".data
    ["db".data] "users".data ["GET".data, "select.sql".data]
    (by decide) (by decide)
  exact ⟨h.1, h.2 "db/GET/health_check.sql".data (by decide)⟩

theorem splitSlash_no_sep :
    ∀ (a : List Char), '/' ∉ a → splitSlash a = [a] := by
  intro a
  induction a with
  | nil => intro _; rfl
  | cons c cs ih =>
    intro h
    have hc : ¬ c = '/' := fun he => h (by simp [he])
    have hcs : splitSlash cs = [cs] := ih (fun hm => h (by simp [hm]))
    simp [splitSlash, hc, hcs]

theorem splitSlash_append_sep :
    ∀ (a rest : List Char), '/' ∉ a →
      splitSlash (a ++ '/' :: rest) = a :: splitSlash rest := by
  intro a
  induction a with
  | nil => intro rest _; simp [splitSlash]
  | cons c cs ih =>
    intro rest h
    have hc : ¬ c = '/' := fun he => h (by simp [he])
    have hcs := ih rest (fun hm => h (by simp [hm]))
    simp [splitSlash, hc, hcs]

theorem trimSuffixL_append (a suf : List Char) :
    trimSuffixL (a ++ suf) suf = a := by
  have hend : endsWithL (a ++ suf) suf = true := by
    unfold endsWithL
    rw [List.reverse_append]
    exact startsWithL_self_append _ _
  unfold trimSuffixL
  rw [if_pos hend, List.length_append]
  simp [List.take_left]

theorem takeWhile_append_stop {p : Char → Bool} :
    ∀ (a : List Char) (c : Char) (r : List Char),
      (∀ x ∈ a, p x = true) → p c = false →
      List.takeWhile p (a ++ c :: r) = a := by
  intro a
  induction a with
  | nil => intro c r _ hc; simp [List.takeWhile_cons, hc]
  | cons x xs ih =>
    intro c r ha hc
    have hx : p x = true := ha x (by simp)
    simp only [List.cons_append, List.takeWhile_cons, hx]
    simp [ih c r (fun y hy => ha y (by simp [hy])) hc]

theorem goBaseL_append (pre last : List Char) (h1 : '/' ∉ last)
    (h2 : last ≠ []) : goBaseL (pre ++ '/' :: last) = last := by
  have hne : pre ++ '/' :: last ≠ [] := by simp
  have hrev : (pre ++ '/' :: last).reverse = last.reverse ++ '/' :: pre.reverse := by
    simp [List.reverse_append]
  have hdrop : List.dropWhile (fun c => c = '/') (last.reverse ++ '/' :: pre.reverse)
      = last.reverse ++ '/' :: pre.reverse := by
    cases hl : last.reverse with
    | nil => exact absurd (by simpa using hl) h2
    | cons d ds =>
      have hd : d ∈ last := by
        have hm : d ∈ last.reverse := by rw [hl]; simp
        simpa using hm
      have hdne : ¬ d = '/' := fun he => h1 (he ▸ hd)
      simp [List.dropWhile_cons, hdne]
  have htake : List.takeWhile (fun c => c ≠ '/')
      (last.reverse ++ '/' :: pre.reverse) = last.reverse := by
    refine takeWhile_append_stop last.reverse '/' pre.reverse ?_ (by simp)
    intro x hx
    have hxl : x ∈ last := List.mem_reverse.mp hx
    have hxne : x ≠ '/' := fun he => h1 (he ▸ hxl)
    simp [hxne]
  unfold goBaseL
  rw [if_neg hne]
  simp only [hrev, hdrop, List.reverse_reverse]
  rw [if_neg (by simp), htake, List.reverse_reverse]

/-- C6 counterexample: `Tables/users/select.sql` is table-scoped by the
spec's definition (its table name is `users`, its descriptor is not
universal), yet `RouteFromPath` maps it to the universal form
`/api/v1/select`, not to `/api/v1/users/select`: the table branch
additionally requires two segments after the table name. -/
theorem C6_counterexample :
    RouteFromPath "Tables/users/select.sql".data "/api/v1".data
      = "/api/v1/select".data ∧
    ExtractTableName "Tables/users/select.sql".data = "users".data ∧
    (AssembleEndpoint "Tables/users/select.sql".data "/api/v1".data).isUniversal
      = false ∧
    "/api/v1/select".data ≠ "/api/v1/users/select".data := by
  refine ⟨by decide, by decide, by decide, by decide⟩

/-- C6 amended: the table-scoped route form
`\x7bbaseURL\x7d/\x7btable\x7d/\x7bstem\x7d` is produced only when the
`Tables` segment is followed by at least three further segments (table
name, an intermediate directory such as the method directory, and the
file name); a file directly under `Tables/<T>/` falls back to the
universal form `\x7bbaseURL\x7d/\x7bstem\x7d`.  Both shapes are shown for
slash-free segment names. -/
theorem C6_amended (b t d f : List Char) (ht : '/' ∉ t) (hd : '/' ∉ d)
    (hf : '/' ∉ f) :
    RouteFromPath
        (tablesLit ++ '/' :: (t ++ '/' :: (d ++ '/' :: (f ++ ".sql".data)))) b
      = b ++ '/' :: (t ++ '/' :: f) ∧
    RouteFromPath (tablesLit ++ '/' :: (t ++ '/' :: (f ++ ".sql".data))) b
      = b ++ '/' :: f := by
  have hfs : '/' ∉ f ++ ".sql".data := by
    intro hm
    rcases List.mem_append.mp hm with h | h
    · exact hf h
    · exact absurd h (by decide)
  constructor
  · have hs1 : splitSlash
        (tablesLit ++ '/' :: (t ++ '/' :: (d ++ '/' :: (f ++ ".sql".data))))
        = [tablesLit, t, d, f ++ ".sql".data] := by
      rw [splitSlash_append_sep _ _ (by decide),
        splitSlash_append_sep t _ ht,
        splitSlash_append_sep d _ hd,
        splitSlash_no_sep (f ++ ".sql".data) hfs]
    have hidx : idxOfTables [tablesLit, t, d, f ++ ".sql".data] = some 0 := by
      simp [idxOfTables]
    simp only [RouteFromPath, hs1, hidx]
    norm_num
    simp [List.getD, trimSuffixL_append]
  · have hs2 : splitSlash (tablesLit ++ '/' :: (t ++ '/' :: (f ++ ".sql".data)))
        = [tablesLit, t, f ++ ".sql".data] := by
      rw [splitSlash_append_sep _ _ (by decide),
        splitSlash_append_sep t _ ht,
        splitSlash_no_sep (f ++ ".sql".data) hfs]
    have hidx : idxOfTables [tablesLit, t, f ++ ".sql".data] = some 0 := by
      simp [idxOfTables]
    have hbase : goBaseL (tablesLit ++ '/' :: (t ++ '/' :: (f ++ ".sql".data)))
        = f ++ ".sql".data := by
      rw [show tablesLit ++ '/' :: (t ++ '/' :: (f ++ ".sql".data))
          = (tablesLit ++ '/' :: t) ++ '/' :: (f ++ ".sql".data) by simp]
      exact goBaseL_append _ _ hfs (by simp)
    simp only [RouteFromPath, hs2, hidx]
    norm_num
    simp [hbase, trimSuffixL_append]

/-- C6 amended witness: the spec's own scenario —
`Tables/users/GET/select.sql` with base `/api/v1` routes to
`/api/v1/users/select`, while `Tables/users/fetch.sql` routes to the
universal `/api/v1/fetch`. -/
theorem C6_amended_witness :
    RouteFromPath
        (tablesLit ++ '/' :: ("users".data ++ '/' ::
          ("GET".data ++ '/' :: ("select".data ++ ".sql".data)))) "/api/v1".data
      = "/api/v1".data ++ '/' :: ("users".data ++ '/' :: "select".data) ∧
    RouteFromPath
        (tablesLit ++ '/' :: ("users".data ++ '/' ::
          ("fetch".data ++ ".sql".data))) "/api/v1".data
      = "/api/v1".data ++ '/' :: "fetch".data := by
  have h := C6_amended "/api/v1".data "users".data "GET".data "select".data
    (by decide) (by decide) (by decide)
  have h2 := C6_amended "/api/v1".data "users".data "GET".data "fetch".data
    (by decide) (by decide) (by decide)
  exact ⟨h.1, h2.2⟩
